import Mathlib

/-!
# A verification development of the `lexer` tokenizer engine

Shallow embedding of `src/index.ts` (the current version, lines 1-185):
the `Token` shape, the `Definition` capability record (a compiled pattern
definition is only consulted through `test` / `exec`, so those two
operations are modelled as abstract functions, exactly the interface the
engine uses), and the `lexer` / `tokenizer` engine with its closure state
(`parentDefinition`, `usedDefinitions`) threaded explicitly.

JavaScript reference identity of `Definition` objects (used by `!=` at
line 134 and as `Map` keys at lines 125/147/165/171) is modelled by a
numeric `id` field: each `definition(...)` call creates a fresh object, so
distinct constructions carry distinct ids and aliases share one.

The engine's unbounded `do/while` loop and the recursive `tokenizer`
calls are modelled with explicit fuel; `none` means the fuel ran out.
-/

/-- Tokens (interface `Token`, lines 3-11): `data` is present only when
named capture groups other than `value` exist (line 162), `children` only
for deep definitions (line 168). -/
inductive Token where
  | mk (type : String) (value : String)
      (data : Option (List (String × String)))
      (children : Option (List Token)) : Token
deriving Repr

def Token.type : Token → String
  | .mk t _ _ _ => t

def Token.value : Token → String
  | .mk _ v _ _ => v

def Token.data : Token → Option (List (String × String))
  | .mk _ _ d _ => d

def Token.children : Token → Option (List Token)
  | .mk _ _ _ c => c

/-- `token.children = ...` assignment at line 168. -/
def Token.withChildren (t : Token) (cs : List Token) : Token :=
  match t with
  | .mk ty v d _ => .mk ty v d (some cs)

/-- `const defaultProcessor: TokenProcessor = (token) => token;` (line 14). -/
def defaultProcessor : Token → Token := fun t => t

/-- The result of a successful `definition.exec(rest)` (line 141): the
whole matched text `match[0]` and the named capture groups
(`match.groups`, as an ordered association list). -/
structure ExecMatch where
  matched : String
  groups : List (String × String)
deriving Repr

/-- A compiled pattern definition (class `Definition`, lines 51-114),
reduced to the capabilities the engine consumes: the `type` tag, the
`deep` / `skip` flags, the `process` hook, and the two matcher operations
`test` (the validation rule, line 108) and `exec` (the match rule,
line 104). `id` models JavaScript object identity. -/
structure Definition where
  id : Nat
  type : String
  deep : Bool := false
  skip : Bool := false
  process : Token → Token := defaultProcessor
  test : String → Bool
  exec : String → Option ExecMatch

/-- The three runtime errors thrown by the engine (lines 139, 142, 149).
`infiniteLoop` carries the offending value and the chain of definition
types that the thrown message enumerates (`keys.join(" -> ")`). -/
inductive LexError where
  | noDefinitionMatched (rest : String)
  | noValueMatched (rest : String)
  | infiniteLoop (value : String) (chain : List String)
deriving Repr, DecidableEq

/-- The lexer closure state (lines 124-125): `parentDefinition` and the
`usedDefinitions` map, which is keyed by definition identity and keeps
JavaScript `Map` insertion order. -/
structure LexState where
  parent : Option Definition
  used : List (Definition × String)

/-- The state both closure variables hold when `lexer` returns
(lines 124-125): `parentDefinition = null`, `usedDefinitions` empty. -/
def LexState.initial : LexState := ⟨none, []⟩

/-- `usedDefinitions.has(definition)` (line 147), by object identity. -/
def usedHas (u : List (Definition × String)) (d : Definition) : Bool :=
  u.any (fun p => p.1.id == d.id)

/-- `usedDefinitions.get(definition)` (line 147). -/
def usedGet (u : List (Definition × String)) (d : Definition) : Option String :=
  (u.find? (fun p => p.1.id == d.id)).map (fun p => p.2)

/-- `usedDefinitions.set(definition, value)` (line 165): a JavaScript
`Map.set` updates an existing key in place (keeping insertion order) and
otherwise appends. -/
def usedSet (u : List (Definition × String)) (d : Definition) (v : String) :
    List (Definition × String) :=
  if usedHas u d then u.map (fun p => if p.1.id == d.id then (p.1, v) else p)
  else u ++ [(d, v)]

/-- `usedDefinitions.delete(definition)` (line 171). -/
def usedDelete (u : List (Definition × String)) (d : Definition) :
    List (Definition × String) :=
  u.filter (fun p => !(p.1.id == d.id))

/-- `[...usedDefinitions.keys()].map((d) => d.type)` (line 148): the map
keys in insertion order, projected to their type tags. -/
def usedTypes (u : List (Definition × String)) : List String :=
  u.map (fun p => p.1.type)

/-- `rest.slice(n)` (line 145). -/
def strSlice (s : String) (n : Nat) : String :=
  ⟨s.data.drop n⟩

/-- `match.groups?.value ?? match[0]` (line 144). -/
def matchValue (m : ExecMatch) : String :=
  (((m.groups.find? (fun p => p.1 == "value")).map (fun p => p.2)).getD m.matched)

/-- `const groups = match.groups ?? {}; delete groups.value;`
(lines 154-155). -/
def matchData (m : ExecMatch) : List (String × String) :=
  m.groups.filter (fun p => !(p.1 == "value"))

/-- The freshly built token of lines 157-162: `type`, `value`, and `data`
only when some named group other than `value` was captured. -/
def mkToken (d : Definition) (m : ExecMatch) : Token :=
  .mk d.type (matchValue m)
    (if (matchData m).isEmpty then none else some (matchData m)) none

/-- The processing pipeline of lines 174-176: the definition's own
`process` hook, then the per-call hook, then the engine-level hook. -/
def applyHooks (d : Definition) (tokP lexP : Token → Token) (t : Token) : Token :=
  lexP (tokP (d.process t))

/-- `const validDefinitions = parentDefinition ? definitions.filter(...) :
definitions;` (lines 133-135): the active definition set, computed once
per `tokenizer` call from the current `parentDefinition`. -/
def activeDefs (defs : List Definition) (st : LexState) : List Definition :=
  match st.parent with
  | some p => defs.filter (fun d => !(d.id == p.id))
  | none => defs

/-- `none` = fuel exhausted; otherwise the thrown error or the returned
token list, paired with the closure state left behind (mutations survive
a thrown error: there is no try/finally in the source). -/
abbrev LexResult := Option (Except LexError (List Token) × LexState)

/-- The body of the `do` loop for the selected definition (lines 141-178),
parametrised by the two recursive entry points it may invoke: `deepRun`
is the nested `tokenizer(value)` call of line 168 (note: invoked without
forwarding the per-call processor) and `loopRun` re-enters the loop. -/
def tokenizeStep (deepRun : LexState → String → LexResult)
    (loopRun : LexState → String → List Token → LexResult)
    (tokP lexP : Token → Token)
    (st : LexState) (rest : String) (toks : List Token) (d : Definition) :
    LexResult :=
  match d.exec rest with
  | none => some (.error (.noValueMatched rest), st)
  | some m =>
    let value := matchValue m
    let rest' := strSlice rest m.matched.length
    if usedHas st.used d && (usedGet st.used d == some value) then
      some (.error (.infiniteLoop value (usedTypes st.used)), st)
    else if d.skip then
      if rest'.length == 0 then some (.ok toks, st)
      else loopRun st rest' toks
    else
      let token := mkToken d m
      if d.deep then
        match deepRun { parent := some d, used := usedSet st.used d value } value with
        | none => none
        | some (.error e, st2) => some (.error e, st2)
        | some (.ok children, st2) =>
          let st3 : LexState := { parent := none, used := usedDelete st2.used d }
          let token' := applyHooks d tokP lexP (token.withChildren children)
          if rest'.length == 0 then some (.ok (toks ++ [token']), st3)
          else loopRun st3 rest' (toks ++ [token'])
      else
        let token' := applyHooks d tokP lexP token
        if rest'.length == 0 then some (.ok (toks ++ [token']), st)
        else loopRun st rest' (toks ++ [token'])

/-- The `do { ... } while (rest.length)` loop of lines 137-179, with the
`find` of line 138 and the `No definition matched` throw of line 139.
One unit of fuel is spent per iteration and per nested `tokenizer` call;
the nested call of line 168 receives `defaultProcessor` because the
per-call processor is not forwarded. -/
def tokenizeLoop (fuel : Nat) (defs : List Definition) (lexP : Token → Token)
    (validDefs : List Definition) (tokP : Token → Token)
    (st : LexState) (rest : String) (toks : List Token) : LexResult :=
  match fuel with
  | 0 => none
  | f + 1 =>
    match validDefs.find? (fun d => d.test rest) with
    | none => some (.error (.noDefinitionMatched rest), st)
    | some d =>
      tokenizeStep
        (fun s v => tokenizeLoop f defs lexP (activeDefs defs s) defaultProcessor s v [])
        (fun s r t => tokenizeLoop f defs lexP validDefs tokP s r t)
        tokP lexP st rest toks d

/-- One `tokenizer(input, tokenizerProcessor)` call (lines 129-182):
computes the active definition set from the current closure state and
runs the matching loop starting with `tokens = []`. -/
def tokenize (fuel : Nat) (defs : List Definition) (lexP : Token → Token)
    (st : LexState) (input : String) (tokP : Token → Token) : LexResult :=
  match fuel with
  | 0 => none
  | f + 1 => tokenizeLoop f defs lexP (activeDefs defs st) tokP st input []

/-- One iteration of the `do` loop for the definition selected at
line 138, naming the instantiation of `tokenizeStep` that `tokenizeLoop`
performs (the nested entry point is `tokenizer(value)` of line 168, the
loop entry point is the next iteration). -/
def tokenizeIter (f : Nat) (defs : List Definition) (lexP : Token → Token)
    (validDefs : List Definition) (tokP : Token → Token)
    (st : LexState) (rest : String) (toks : List Token) (d : Definition) :
    LexResult :=
  tokenizeStep
    (fun s v => tokenizeLoop f defs lexP (activeDefs defs s) defaultProcessor s v [])
    (fun s r t => tokenizeLoop f defs lexP validDefs tokP s r t)
    tokP lexP st rest toks d

/-- Instrumented copy of `tokenizeLoop` that additionally accumulates the
total number of characters consumed by `skip` matches (line 152), so the
coverage accounting of spec §8 can be stated; its token/state components
agree with `tokenizeLoop` (theorem `tokenizeLoopSk_erase` below). The
nested deep call stays the plain `tokenizeLoop`: children are tokens of
the recursive call and their own accounting is internal to it. -/
def tokenizeLoopSk (fuel : Nat) (defs : List Definition) (lexP : Token → Token)
    (validDefs : List Definition) (tokP : Token → Token)
    (st : LexState) (rest : String) (toks : List Token) (sk : Nat) :
    Option (Except LexError (List Token) × LexState × Nat) :=
  match fuel with
  | 0 => none
  | f + 1 =>
    match validDefs.find? (fun d => d.test rest) with
    | none => some (.error (.noDefinitionMatched rest), st, sk)
    | some d =>
      match d.exec rest with
      | none => some (.error (.noValueMatched rest), st, sk)
      | some m =>
        let value := matchValue m
        let rest' := strSlice rest m.matched.length
        if usedHas st.used d && (usedGet st.used d == some value) then
          some (.error (.infiniteLoop value (usedTypes st.used)), st, sk)
        else if d.skip then
          if rest'.length == 0 then some (.ok toks, st, sk + m.matched.length)
          else tokenizeLoopSk f defs lexP validDefs tokP st rest' toks
            (sk + m.matched.length)
        else
          let token := mkToken d m
          if d.deep then
            match tokenizeLoop f defs lexP
                (activeDefs defs ⟨some d, usedSet st.used d value⟩)
                defaultProcessor ⟨some d, usedSet st.used d value⟩ value [] with
            | none => none
            | some (.error e, st2) => some (.error e, st2, sk)
            | some (.ok children, st2) =>
              let st3 : LexState := ⟨none, usedDelete st2.used d⟩
              let token' := applyHooks d tokP lexP (token.withChildren children)
              if rest'.length == 0 then some (.ok (toks ++ [token']), st3, sk)
              else tokenizeLoopSk f defs lexP validDefs tokP st3 rest'
                (toks ++ [token']) sk
          else
            let token' := applyHooks d tokP lexP token
            if rest'.length == 0 then some (.ok (toks ++ [token']), st, sk)
            else tokenizeLoopSk f defs lexP validDefs tokP st rest'
              (toks ++ [token']) sk

/-- `tokenize` with the skipped-character accounting of `tokenizeLoopSk`. -/
def tokenizeSk (fuel : Nat) (defs : List Definition) (lexP : Token → Token)
    (st : LexState) (input : String) (tokP : Token → Token) :
    Option (Except LexError (List Token) × LexState × Nat) :=
  match fuel with
  | 0 => none
  | f + 1 => tokenizeLoopSk f defs lexP (activeDefs defs st) tokP st input [] 0

mutual

/-- Modelled from the spec: `flatten(tokens)` of §8 *Coverage* — a token
together with all tokens reachable through `children`. The source has no
such function; it exists only to state the coverage claim. -/
def tokenFlat : Token → List Token
  | .mk ty v dt cs =>
    .mk ty v dt cs :: (match cs with | none => [] | some l => tokenListFlat l)

/-- Modelled from the spec: `flatten` mapped over a token list. -/
def tokenListFlat : List Token → List Token
  | [] => []
  | t :: ts => tokenFlat t ++ tokenListFlat ts

end

/-- `sum(len(token.value) for token in ...)` of spec §8 *Coverage*. -/
def sumValues (ts : List Token) : Nat :=
  (ts.map (fun t => t.value.length)).sum

/-! ## Concrete definitions used in counterexamples and witnesses

Each models a `definition(...)` result through the abstract `test` /
`exec` interface; ids are distinct because each construction is a fresh
object. -/

/-- The identity token processor, used where a call site relies on the
`defaultProcessor` default. -/
def idT : Token → Token := fun t => t

/-- Deep definition matching "a" (extracting value "b" through a `value`
capture group) and "c"; first in its list. -/
def dA : Definition :=
  { id := 1, type := "t1", deep := true
    test := fun s => s == "a" || s == "c"
    exec := fun s =>
      if s == "a" then some ⟨"a", [("value", "b")]⟩
      else if s == "c" then some ⟨"c", []⟩ else none }

/-- Deep definition matching "b" (extracting value "c"). -/
def dB : Definition :=
  { id := 2, type := "t2", deep := true
    test := fun s => s == "b"
    exec := fun s => if s == "b" then some ⟨"b", [("value", "c")]⟩ else none }

/-- Plain definition matching "c". -/
def dC : Definition :=
  { id := 3, type := "t3"
    test := fun s => s == "c"
    exec := fun s => if s == "c" then some ⟨"c", []⟩ else none }

/-- First deep definition matching "mock" (mirrors `def1` of the
"nested definitions without infinite loop" test). -/
def mockDeep1 : Definition :=
  { id := 1, type := "t1", deep := true
    test := fun s => s == "mock"
    exec := fun s => if s == "mock" then some ⟨"mock", []⟩ else none }

/-- Second deep definition matching "mock" (mirrors `def2`). -/
def mockDeep2 : Definition :=
  { id := 2, type := "t2", deep := true
    test := fun s => s == "mock"
    exec := fun s => if s == "mock" then some ⟨"mock", []⟩ else none }

/-- Deep definition matching "ab" (value "x", which nothing tokenizes)
and "cd" (value "ok"). -/
def dPollute : Definition :=
  { id := 1, type := "e1", deep := true
    test := fun s => s == "ab" || s == "cd"
    exec := fun s =>
      if s == "ab" then some ⟨"ab", [("value", "x")]⟩
      else if s == "cd" then some ⟨"cd", [("value", "ok")]⟩ else none }

/-- Plain definition matching "ok". -/
def dOk : Definition :=
  { id := 2, type := "e2"
    test := fun s => s == "ok"
    exec := fun s => if s == "ok" then some ⟨"ok", []⟩ else none }

/-- Definition whose validation and match rules accept the empty string
(e.g. a regex like `.*` does). -/
def dEmpty : Definition :=
  { id := 1, type := "t"
    test := fun s => s.length == 0
    exec := fun s => if s.length == 0 then some ⟨"", []⟩ else none }

/-- Skip definition accepting the empty string. -/
def dEmptySkip : Definition :=
  { id := 2, type := "sk", skip := true
    test := fun s => s.length == 0
    exec := fun s => if s.length == 0 then some ⟨"", []⟩ else none }

/-- Definition matching nothing at all. -/
def dNever : Definition :=
  { id := 9, type := "never"
    test := fun _ => false
    exec := fun _ => none }

/-- Definition whose validation rule accepts "mock" but whose match rule
extracts nothing (the `valid` / regex inconsistency of the
"No value matched" test). -/
def dValOnly : Definition :=
  { id := 4, type := "vo"
    test := fun s => s == "mock"
    exec := fun _ => none }

/-- Deep definition matching "ab" whole. -/
def dDeepAB : Definition :=
  { id := 1, type := "t1", deep := true
    test := fun s => s == "ab"
    exec := fun s => if s == "ab" then some ⟨"ab", []⟩ else none }

/-- Plain definition matching "ab" whole. -/
def dPlainAB : Definition :=
  { id := 2, type := "t2"
    test := fun s => s == "ab"
    exec := fun s => if s == "ab" then some ⟨"ab", []⟩ else none }

/-- Skip definition consuming one leading space. -/
def dSpaceSkip : Definition :=
  { id := 1, type := "space", skip := true
    test := fun s => s.data.head? == some ' '
    exec := fun s => if s.data.head? == some ' ' then some ⟨" ", []⟩ else none }

/-- Definition consuming one leading character of a non-empty input. -/
def dOneChar : Definition :=
  { id := 2, type := "char"
    test := fun s => !(s.length == 0)
    exec := fun s => match s.data with
      | [] => none
      | c :: _ => some ⟨⟨[c]⟩, []⟩ }

/-- Definition matching "hello" with a local `process` hook appending
"-local" to the value (the pipeline-order fixture of spec §8). -/
def dHello : Definition :=
  { id := 1, type := "hello"
    process := fun t => .mk t.type (t.value ++ "-local") t.data t.children
    test := fun s => s == "hello"
    exec := fun s => if s == "hello" then some ⟨"hello", []⟩ else none }

/-- Per-call hook appending "-percall" to the value. -/
def perCallHook : Token → Token :=
  fun t => .mk t.type (t.value ++ "-percall") t.data t.children

/-- Engine-level hook appending "-engine" to the value. -/
def engineHook : Token → Token :=
  fun t => .mk t.type (t.value ++ "-engine") t.data t.children

/-! ## Helper lemmas -/

/-- Unfolding one loop iteration: the `find` of line 138 selects the
definition and `tokenizeIter` handles it. -/
theorem tokenizeLoop_succ (f : Nat) (defs : List Definition)
    (lexP : Token → Token) (validDefs : List Definition)
    (tokP : Token → Token) (st : LexState) (rest : String) (toks : List Token) :
    tokenizeLoop (f + 1) defs lexP validDefs tokP st rest toks =
      match validDefs.find? (fun d => d.test rest) with
      | none => some (.error (.noDefinitionMatched rest), st)
      | some d => tokenizeIter f defs lexP validDefs tokP st rest toks d := rfl

/-- `Array.prototype.find` semantics: the first element satisfying the
predicate is returned, regardless of later elements. -/
theorem find?_append_first {α : Type} (p : α → Bool) (l1 : List α) (d : α)
    (l2 : List α) (h1 : ∀ e ∈ l1, p e = false) (h2 : p d = true) :
    (l1 ++ d :: l2).find? p = some d := by
  induction l1 with
  | nil => simp [List.find?_cons, h2]
  | cons a l ih =>
    have ha : p a = false := h1 a (List.mem_cons_self a l)
    simp only [List.cons_append, List.find?_cons, ha]
    exact ih (fun e he => h1 e (List.mem_cons_of_mem a he))

theorem Token.type_withChildren (t : Token) (cs : List Token) :
    (t.withChildren cs).type = t.type := by
  cases t; rfl

theorem Token.value_withChildren (t : Token) (cs : List Token) :
    (t.withChildren cs).value = t.value := by
  cases t; rfl

theorem strSlice_length (s : String) (n : Nat) :
    (strSlice s n).length = s.length - n := by
  cases s with
  | mk data =>
    simp only [strSlice, String.length]
    exact List.length_drop _ _

/-! ## C1: first matching definition wins -/

/-- Claim C1: at every loop position, the match (emitted token or silent
skip) is handled by the first definition, in list order among the active
definitions, whose validation rule (`test`) accepts the remaining input —
later definitions are never consulted, whatever their match rules would
consume — and, when hooks preserve the `type` field, the token built for
that match carries the earlier definition's type. -/
theorem tokenize_first_match_wins
    (f : Nat) (defs : List Definition) (lexP tokP : Token → Token)
    (st : LexState) (rest : String) (toks : List Token)
    (l1 l2 : List Definition) (d : Definition)
    (hbefore : ∀ e ∈ l1, e.test rest = false) (hd : d.test rest = true)
    (hdp : ∀ t, (d.process t).type = t.type)
    (htokP : ∀ t, (tokP t).type = t.type)
    (hlexP : ∀ t, (lexP t).type = t.type) :
    tokenizeLoop (f + 1) defs lexP (l1 ++ d :: l2) tokP st rest toks =
      tokenizeIter f defs lexP (l1 ++ d :: l2) tokP st rest toks d
    ∧ (∀ m, (applyHooks d tokP lexP (mkToken d m)).type = d.type)
    ∧ (∀ m cs,
        (applyHooks d tokP lexP ((mkToken d m).withChildren cs)).type = d.type) := by
  refine ⟨?_, ?_, ?_⟩
  · rw [tokenizeLoop_succ, find?_append_first _ _ _ _ hbefore hd]
  · intro m
    rw [applyHooks, hlexP, htokP, hdp]; rfl
  · intro m cs
    rw [applyHooks, hlexP, htokP, hdp, Token.type_withChildren]; rfl

/-- Witness for C1: with `dNever` (validation fails) listed before
`dPlainAB`, the match on "ab" is handled by `dPlainAB`, and its token
carries type "t2". -/
theorem tokenize_first_match_wins_witness :
    (tokenizeLoop 4 [dNever, dPlainAB] idT ([dNever] ++ dPlainAB :: []) idT
        LexState.initial "ab" [] =
      tokenizeIter 3 [dNever, dPlainAB] idT ([dNever] ++ dPlainAB :: []) idT
        LexState.initial "ab" [] dPlainAB)
    ∧ (applyHooks dPlainAB idT idT
        (mkToken dPlainAB ⟨"ab", []⟩)).type = dPlainAB.type
    ∧ (applyHooks dPlainAB idT idT
        ((mkToken dPlainAB ⟨"ab", []⟩).withChildren [])).type = dPlainAB.type :=
  ⟨(tokenize_first_match_wins 3 [dNever, dPlainAB] idT idT LexState.initial "ab" []
      [dNever] [] dPlainAB
      (by intro e he; simp at he; subst he; rfl) (by rfl)
      (fun t => rfl) (fun t => rfl) (fun t => rfl)).1,
   (tokenize_first_match_wins 3 [dNever, dPlainAB] idT idT LexState.initial "ab" []
      [dNever] [] dPlainAB
      (by intro e he; simp at he; subst he; rfl) (by rfl)
      (fun t => rfl) (fun t => rfl) (fun t => rfl)).2.1 ⟨"ab", []⟩,
   (tokenize_first_match_wins 3 [dNever, dPlainAB] idT idT LexState.initial "ab" []
      [dNever] [] dPlainAB
      (by intro e he; simp at he; subst he; rfl) (by rfl)
      (fun t => rfl) (fun t => rfl) (fun t => rfl)).2.2 ⟨"ab", []⟩ []⟩

/-! ## C5: the two matching errors -/

/-- Claim C5: when no active definition's validation rule accepts the
remaining input, the loop throws `NoDefinitionMatchedError` carrying
exactly the remaining text (line 139); when the first accepting
definition's match rule extracts nothing, it throws the distinct
`NoValueMatchedError` carrying the remaining text (line 142); in both
cases the call aborts at once and the tokens accumulated so far are
discarded (the conclusion does not depend on `toks`). -/
theorem tokenize_matching_errors
    (f : Nat) (defs : List Definition) (lexP : Token → Token)
    (vd : List Definition) (tokP : Token → Token)
    (st : LexState) (rest : String) (toks : List Token) :
    (vd.find? (fun d => d.test rest) = none →
      tokenizeLoop (f + 1) defs lexP vd tokP st rest toks =
        some (.error (.noDefinitionMatched rest), st))
    ∧ (∀ d, vd.find? (fun d => d.test rest) = some d → d.exec rest = none →
      tokenizeLoop (f + 1) defs lexP vd tokP st rest toks =
        some (.error (.noValueMatched rest), st))
    ∧ (∀ r : String, LexError.noDefinitionMatched r ≠ LexError.noValueMatched r) := by
  refine ⟨?_, ?_, ?_⟩
  · intro h; rw [tokenizeLoop_succ, h]
  · intro d hfind hexec
    rw [tokenizeLoop_succ, hfind]
    simp only [tokenizeIter, tokenizeStep, hexec]
  · intro r h; cases h

/-- Witness for C5: with only `dNever` active, "q" triggers
`NoDefinitionMatchedError "q"`; with only `dValOnly` (validation accepts
"mock", match rule extracts nothing), "mock" triggers
`NoValueMatchedError "mock"`. -/
theorem tokenize_matching_errors_witness :
    (tokenizeLoop 3 [dNever] idT [dNever] idT LexState.initial "q" [] =
      some (.error (.noDefinitionMatched "q"), LexState.initial))
    ∧ (tokenizeLoop 3 [dValOnly] idT [dValOnly] idT LexState.initial "mock" [] =
      some (.error (.noValueMatched "mock"), LexState.initial)) :=
  ⟨(tokenize_matching_errors 2 [dNever] idT [dNever] idT
      LexState.initial "q" []).1 rfl,
   (tokenize_matching_errors 2 [dValOnly] idT [dValOnly] idT
      LexState.initial "mock" []).2.1 dValOnly rfl rfl⟩

/-! ## C3: loop detection and the reported chain -/

/-- Claim C3 (amended): whenever the selected definition extracts a value
and is already recorded in the recursion map with an equal value, the
loop throws `InfiniteLoopError` for that value; the reported chain is the
recursion map's keys' types in insertion (oldest-first) order — the
offending definition appears at its recorded position in that chain and
is not appended again at the end. -/
theorem tokenize_infinite_loop_chain
    (f : Nat) (defs : List Definition) (lexP : Token → Token)
    (vd : List Definition) (tokP : Token → Token)
    (st : LexState) (rest : String) (toks : List Token)
    (d : Definition) (m : ExecMatch)
    (hfind : vd.find? (fun e => e.test rest) = some d)
    (hexec : d.exec rest = some m)
    (hhas : usedHas st.used d = true)
    (hget : usedGet st.used d = some (matchValue m)) :
    tokenizeLoop (f + 1) defs lexP vd tokP st rest toks =
      some (.error (.infiniteLoop (matchValue m) (usedTypes st.used)), st) := by
  rw [tokenizeLoop_succ, hfind]
  simp only [tokenizeIter, tokenizeStep, hexec]
  simp [hhas, hget]

/-- Counterexample to C3 as stated: with the two mutually-deep "mock"
definitions, the offender is `mockDeep1` ("t1", the oldest stack entry),
yet the chain reported is just the stack ["t1", "t2"] — the offending
type is not appended after the stack, which would have given
["t1", "t2", "t1"]. -/
theorem tokenize_infinite_loop_chain_cex :
    (tokenize 20 [mockDeep1, mockDeep2] idT LexState.initial "mock" idT).map
        (fun r => r.1) =
      some (.error (.infiniteLoop "mock" ["t1", "t2"]))
    ∧ ["t1", "t2"] ≠ ["t1", "t2", "t1"] :=
  ⟨rfl, by decide⟩

/-- Witness for C3 (amended): the state reached two deep levels into the
"mock" run, where `mockDeep1` re-extracts "mock". -/
theorem tokenize_infinite_loop_chain_witness :
    tokenizeLoop 3 [mockDeep1, mockDeep2] idT [mockDeep1] idT
        ⟨some mockDeep2, [(mockDeep1, "mock"), (mockDeep2, "mock")]⟩ "mock" [] =
      some (.error (.infiniteLoop "mock" ["t1", "t2"]),
        ⟨some mockDeep2, [(mockDeep1, "mock"), (mockDeep2, "mock")]⟩) :=
  tokenize_infinite_loop_chain 2 [mockDeep1, mockDeep2] idT [mockDeep1] idT
    ⟨some mockDeep2, [(mockDeep1, "mock"), (mockDeep2, "mock")]⟩ "mock" []
    mockDeep1 ⟨"mock", []⟩ rfl rfl rfl rfl

/-! ## C8: processing pipeline order -/

/-- Claim C8: every emitted (non-deep) token passes through the hooks in
the fixed order of lines 174-176 — the definition's own `process` hook
first, then the per-call hook `tokP`, then the engine-level hook `lexP`,
each receiving the previous stage's token. -/
theorem tokenize_pipeline_order
    (f : Nat) (defs : List Definition) (lexP : Token → Token)
    (vd : List Definition) (tokP : Token → Token)
    (st : LexState) (rest : String) (toks : List Token)
    (d : Definition) (m : ExecMatch)
    (hfind : vd.find? (fun e => e.test rest) = some d)
    (hexec : d.exec rest = some m)
    (hnl : (usedHas st.used d && (usedGet st.used d == some (matchValue m))) = false)
    (hskip : d.skip = false) (hdeep : d.deep = false) :
    tokenizeLoop (f + 1) defs lexP vd tokP st rest toks =
      if (strSlice rest m.matched.length).length == 0 then
        some (.ok (toks ++ [lexP (tokP (d.process (mkToken d m)))]), st)
      else
        tokenizeLoop f defs lexP vd tokP st (strSlice rest m.matched.length)
          (toks ++ [lexP (tokP (d.process (mkToken d m)))]) := by
  rw [tokenizeLoop_succ, hfind]
  simp only [tokenizeIter, tokenizeStep, hexec, hnl, hskip, hdeep, applyHooks]
  simp

/-- Witness for C8: tokenizing "hello" with the three suffix-appending
hooks yields value "hello-local-percall-engine", evidencing the order
local → per-call → engine; the pipeline shape is obtained by applying the
pipeline theorem at this input. -/
theorem tokenize_pipeline_order_witness :
    (tokenizeLoop 3 [dHello] engineHook [dHello] perCallHook
        LexState.initial "hello" [] =
      if (strSlice "hello" ("hello" : String).length).length == 0 then
        some (.ok ([] ++ [engineHook (perCallHook
          (dHello.process (mkToken dHello ⟨"hello", []⟩)))]), LexState.initial)
      else
        tokenizeLoop 2 [dHello] engineHook [dHello] perCallHook LexState.initial
          (strSlice "hello" ("hello" : String).length)
          ([] ++ [engineHook (perCallHook
            (dHello.process (mkToken dHello ⟨"hello", []⟩)))]))
    ∧ tokenize 5 [dHello] engineHook LexState.initial "hello" perCallHook =
        some (.ok [Token.mk "hello" "hello-local-percall-engine" none none],
          LexState.initial) :=
  ⟨tokenize_pipeline_order 2 [dHello] engineHook [dHello] perCallHook
      LexState.initial "hello" [] dHello ⟨"hello", []⟩ rfl rfl rfl rfl rfl,
   rfl⟩

/-! ## C9: deep children do not see the per-call hook -/

/-- Claim C9: for a deep definition the children are produced by the
nested `tokenizer(value)` call of line 168, which is invoked with
`defaultProcessor` in place of the outer per-call hook `tokP` — so every
child token passes through its own definition's `process` hook and the
engine-level `lexP` hook, but never through the outer call's per-call
hook; `tokP` is applied only to the enclosing (parent) token. -/
theorem tokenize_deep_children
    (f : Nat) (defs : List Definition) (lexP : Token → Token)
    (vd : List Definition) (tokP : Token → Token)
    (st : LexState) (rest : String) (toks : List Token)
    (d : Definition) (m : ExecMatch)
    (hfind : vd.find? (fun e => e.test rest) = some d)
    (hexec : d.exec rest = some m)
    (hnl : (usedHas st.used d && (usedGet st.used d == some (matchValue m))) = false)
    (hskip : d.skip = false) (hdeep : d.deep = true) :
    tokenizeLoop (f + 1) defs lexP vd tokP st rest toks =
      match tokenize (f + 1) defs lexP
          ⟨some d, usedSet st.used d (matchValue m)⟩
          (matchValue m) defaultProcessor with
      | none => none
      | some (.error e, st2) => some (.error e, st2)
      | some (.ok children, st2) =>
        if (strSlice rest m.matched.length).length == 0 then
          some (.ok (toks ++ [applyHooks d tokP lexP
              ((mkToken d m).withChildren children)]),
            ⟨none, usedDelete st2.used d⟩)
        else
          tokenizeLoop f defs lexP vd tokP ⟨none, usedDelete st2.used d⟩
            (strSlice rest m.matched.length)
            (toks ++ [applyHooks d tokP lexP
              ((mkToken d m).withChildren children)]) := by
  rw [tokenizeLoop_succ, hfind]
  simp only [tokenizeIter, tokenizeStep, hexec, hnl, hskip, hdeep]
  simp [tokenize]

/-- Witness for C9: the deep "cd" match of `dPollute` hands the extracted
value "ok" to a nested call that uses `defaultProcessor`, not the outer
per-call hook; the stated result is the deep-branch shape of the theorem,
fully evaluated. -/
theorem tokenize_deep_children_witness :
    tokenizeLoop 9 [dPollute, dOk] idT [dPollute, dOk] idT
        LexState.initial "cd" [] =
      some (.ok [Token.mk "e1" "ok" none (some [Token.mk "e2" "ok" none none])],
        LexState.initial) :=
  tokenize_deep_children 8 [dPollute, dOk] idT [dPollute, dOk] idT
    LexState.initial "cd" [] dPollute ⟨"cd", [("value", "ok")]⟩ rfl rfl rfl rfl rfl

/-! ## C2: the active definition set -/

/-- Claim C2 (amended): the active definition set of a nested call equals
the constructor-supplied list minus the single immediately-enclosing deep
definition (`parentDefinition`, lines 133-135) — deep ancestors further
up the recursion are *not* excluded and become eligible again; only the
value-sensitive loop detection of line 147 guards them. -/
theorem active_set_excludes_only_parent
    (defs : List Definition) (st : LexState) (p : Definition)
    (h : st.parent = some p) :
    activeDefs defs st = defs.filter (fun d => !(d.id == p.id))
    ∧ ∀ d0 ∈ defs, d0.id ≠ p.id → d0 ∈ activeDefs defs st := by
  constructor
  · simp [activeDefs, h]
  · intro d0 hm hne
    simp [activeDefs, h, List.mem_filter, hm, hne]

/-- Witness for C2 (amended): one level inside `dB`, the grandparent
`dA` is back in the active set. -/
theorem active_set_excludes_only_parent_witness :
    activeDefs [dA, dB, dC] ⟨some dB, [(dA, "b")]⟩ =
      [dA, dB, dC].filter (fun d => !(d.id == dB.id))
    ∧ dA ∈ activeDefs [dA, dB, dC] ⟨some dB, [(dA, "b")]⟩ :=
  ⟨(active_set_excludes_only_parent [dA, dB, dC] ⟨some dB, [(dA, "b")]⟩ dB rfl).1,
   (active_set_excludes_only_parent [dA, dB, dC] ⟨some dB, [(dA, "b")]⟩ dB rfl).2
     dA (by simp) (by decide)⟩

/-- Counterexample to C2 as stated: tokenizing "a" with `[dA, dB, dC]`
recurses dA → dB and then, two deep levels down (both dA and dB are
enclosing deep ancestors), the value "c" is matched by the grandparent
`dA` itself — the emitted grandchild token has type "t1". Under the
claim, the active set there would be the list minus both ancestors,
i.e. `[dC]`, and the grandchild would have type "t3". -/
theorem active_set_cex :
    tokenize 20 [dA, dB, dC] idT LexState.initial "a" idT =
      some (.ok [Token.mk "t1" "b" none (some [Token.mk "t2" "c" none
          (some [Token.mk "t1" "c" none
            (some [Token.mk "t3" "c" none none])])])],
        LexState.initial)
    ∧ "t1" ≠ "t3" :=
  ⟨rfl, by decide⟩

/-! ## C6: empty input runs the loop body once -/

/-- Claim C6 (amended): the matching loop is a do/while (line 179), so on
the empty string its body still runs once: if no active definition's
validation rule accepts "", the call throws `NoDefinitionMatchedError ""`;
otherwise the single empty match is processed as usual — one token is
emitted (or none when the matching definition is `skip`). The empty token
sequence is returned only in the skip case. -/
theorem tokenize_empty_input
    (f : Nat) (defs : List Definition) (lexP tokP : Token → Token)
    (st : LexState) :
    ((activeDefs defs st).find? (fun d => d.test "") = none →
      tokenize (f + 2) defs lexP st "" tokP =
        some (.error (.noDefinitionMatched ""), st))
    ∧ (∀ d m, (activeDefs defs st).find? (fun d => d.test "") = some d →
        d.exec "" = some m →
        (usedHas st.used d && (usedGet st.used d == some (matchValue m))) = false →
        d.skip = false → d.deep = false →
        tokenize (f + 2) defs lexP st "" tokP =
          some (.ok [applyHooks d tokP lexP (mkToken d m)], st))
    ∧ (∀ d m, (activeDefs defs st).find? (fun d => d.test "") = some d →
        d.exec "" = some m →
        (usedHas st.used d && (usedGet st.used d == some (matchValue m))) = false →
        d.skip = true →
        tokenize (f + 2) defs lexP st "" tokP = some (.ok [], st)) := by
  have hlen : ∀ n, ((strSlice "" n).length == 0) = true := by
    intro n; simp [strSlice_length]
  refine ⟨?_, ?_, ?_⟩
  · intro h
    show tokenizeLoop (f + 1) defs lexP (activeDefs defs st) tokP st "" [] = _
    rw [tokenizeLoop_succ, h]
  · intro d m hfind hexec hnl hskip hdeep
    show tokenizeLoop (f + 1) defs lexP (activeDefs defs st) tokP st "" [] = _
    rw [tokenizeLoop_succ, hfind]
    simp only [tokenizeIter, tokenizeStep, hexec, hnl, hskip, hdeep]
    simp [hlen]
  · intro d m hfind hexec hnl hskip
    show tokenizeLoop (f + 1) defs lexP (activeDefs defs st) tokP st "" [] = _
    rw [tokenizeLoop_succ, hfind]
    simp only [tokenizeIter, tokenizeStep, hexec, hnl, hskip]
    simp [hlen]

/-- Witness for C6 (amended): with only `dNever`, the empty input throws;
with `dEmpty` (a pattern accepting ""), it emits one empty-valued token;
with `dEmptySkip`, it returns the empty sequence. -/
theorem tokenize_empty_input_witness :
    (tokenize 4 [dNever] idT LexState.initial "" idT =
      some (.error (.noDefinitionMatched ""), LexState.initial))
    ∧ (tokenize 4 [dEmpty] idT LexState.initial "" idT =
      some (.ok [Token.mk "t" "" none none], LexState.initial))
    ∧ (tokenize 4 [dEmptySkip] idT LexState.initial "" idT =
      some (.ok [], LexState.initial)) :=
  ⟨(tokenize_empty_input 2 [dNever] idT idT LexState.initial).1 rfl,
   (tokenize_empty_input 2 [dEmpty] idT idT LexState.initial).2.1
     dEmpty ⟨"", []⟩ rfl rfl rfl rfl rfl,
   (tokenize_empty_input 2 [dEmptySkip] idT idT LexState.initial).2.2
     dEmptySkip ⟨"", []⟩ rfl rfl rfl rfl⟩

/-- Counterexample to C6 as stated: `dEmpty`'s validation rule accepts
the empty string, so tokenizing "" consults it and returns one token —
not the empty sequence the claim promises for every non-empty definition
list. (And with `dNever` instead, the same call raises an error rather
than returning [] — see the witness above.) -/
theorem tokenize_empty_input_cex :
    tokenize 5 [dEmpty] idT LexState.initial "" idT =
      some (.ok [Token.mk "t" "" none none], LexState.initial)
    ∧ [Token.mk "t" "" none none] ≠ ([] : List Token) :=
  ⟨rfl, List.cons_ne_nil _ _⟩

/-! ## State bookkeeping lemmas (for C10 and C4) -/

/-- Overwriting a key and then deleting it removes exactly the entries
the plain delete removes. -/
theorem filter_ne_map_set (u : List (Definition × String)) (d : Definition)
    (v : String) :
    (u.map (fun p => if p.1.id == d.id then (p.1, v) else p)).filter
        (fun p => !(p.1.id == d.id)) =
      u.filter (fun p => !(p.1.id == d.id)) := by
  induction u with
  | nil => rfl
  | cons q u' ih =>
    by_cases hq : q.1.id = d.id
    · simp [List.filter_cons, hq]
      simpa using ih
    · simp [List.filter_cons, hq]
      simpa using ih

/-- `usedDefinitions.set(d, v)` followed by `usedDefinitions.delete(d)`
leaves the map as a plain `delete(d)` would. -/
theorem usedDelete_usedSet (u : List (Definition × String)) (d : Definition)
    (v : String) :
    usedDelete (usedSet u d v) d = usedDelete u d := by
  unfold usedSet
  cases h : usedHas u d with
  | true =>
    simp only [h, if_true]
    exact filter_ne_map_set u d v
  | false =>
    simp only [h, Bool.false_eq_true, if_false, usedDelete, List.filter_append]
    simp

theorem usedDelete_sublist (u : List (Definition × String)) (d : Definition) :
    (usedDelete u d).Sublist u :=
  List.filter_sublist u

/-- Core bookkeeping invariant: a loop run that returns successfully
leaves the `usedDefinitions` map a sublist of the one it started from
(every `set` of line 165 is matched by the `delete` of line 171, possibly
performed early by a deeper overwrite) and leaves `parentDefinition`
either untouched or reset to `null` (line 170). -/
theorem tokenizeLoop_state_inv (fuel : Nat) :
    ∀ (defs : List Definition) (lexP : Token → Token) (vd : List Definition)
      (tokP : Token → Token) (st : LexState) (rest : String)
      (toks toksF : List Token) (st' : LexState),
      tokenizeLoop fuel defs lexP vd tokP st rest toks = some (.ok toksF, st') →
      st'.used.Sublist st.used ∧ (st'.parent = st.parent ∨ st'.parent = none) := by
  induction fuel with
  | zero =>
    intro defs lexP vd tokP st rest toks toksF st' h
    simp [tokenizeLoop] at h
  | succ f ih =>
    intro defs lexP vd tokP st rest toks toksF st' h
    rw [tokenizeLoop_succ] at h
    cases hfind : vd.find? (fun d => d.test rest) with
    | none => rw [hfind] at h; simp at h
    | some d =>
      rw [hfind] at h
      simp only [tokenizeIter, tokenizeStep] at h
      split at h
      · simp at h
      · rename_i m hexec
        split at h
        · simp at h
        · rename_i hcond
          split at h
          · rename_i hskip
            split at h
            · simp only [Option.some.injEq, Prod.mk.injEq, Except.ok.injEq] at h
              obtain ⟨-, rfl⟩ := h
              exact ⟨List.Sublist.refl _, Or.inl rfl⟩
            · exact ih _ _ _ _ _ _ _ _ _ h
          · rename_i hskip
            split at h
            · rename_i hdeep
              split at h
              · exact Option.noConfusion h
              · simp at h
              · rename_i children st2 hnest
                have hsub2 := ih _ _ _ _ _ _ _ _ _ hnest
                have hstep : (usedDelete st2.used d).Sublist st.used := by
                  have h1 := List.Sublist.filter
                    (fun p => !(p.1.id == d.id)) hsub2.1
                  rw [show ((⟨some d, usedSet st.used d (matchValue m)⟩ :
                    LexState).used) = usedSet st.used d (matchValue m) from rfl]
                    at h1
                  have h2 : (usedDelete st2.used d).Sublist
                      (usedDelete (usedSet st.used d (matchValue m)) d) := h1
                  rw [usedDelete_usedSet] at h2
                  exact h2.trans (usedDelete_sublist _ _)
                split at h
                · simp only [Option.some.injEq, Prod.mk.injEq,
                    Except.ok.injEq] at h
                  obtain ⟨-, rfl⟩ := h
                  exact ⟨hstep, Or.inr rfl⟩
                · have h3 := ih _ _ _ _ _ _ _ _ _ h
                  refine ⟨h3.1.trans hstep, Or.inr ?_⟩
                  rcases h3.2 with h4 | h4 <;> exact h4
            · rename_i hdeep
              split at h
              · simp only [Option.some.injEq, Prod.mk.injEq,
                  Except.ok.injEq] at h
                obtain ⟨-, rfl⟩ := h
                exact ⟨List.Sublist.refl _, Or.inl rfl⟩
              · exact ih _ _ _ _ _ _ _ _ _ h

/-- A successful `tokenize` call started from the initial closure state
ends with the initial closure state. -/
theorem tokenize_initial_state (fuel : Nat) (defs : List Definition)
    (lexP tokP : Token → Token) (input : String) (toks : List Token)
    (st' : LexState)
    (h : tokenize fuel defs lexP LexState.initial input tokP =
      some (.ok toks, st')) :
    st' = LexState.initial := by
  cases fuel with
  | zero => simp [tokenize] at h
  | succ f =>
    obtain ⟨h1, h2⟩ := tokenizeLoop_state_inv f _ _ _ _ _ _ _ _ _ h
    have hu : st'.used = [] := List.sublist_nil.mp h1
    have hp : st'.parent = none := by rcases h2 with h3 | h3 <;> exact h3
    cases st' with
    | mk p u =>
      simp only [LexState.initial]
      simp only at hp hu
      rw [hp, hu]

/-! ## C10: successful calls restore the bookkeeping -/

/-- Claim C10: every top-level `tokenize` call that starts from the
initial closure state and returns successfully restores that state —
each recursion-map entry written at line 165 is gone by return, and no
`parentDefinition` exclusion remains (line 170) — so a subsequent call on
the same tokenizer scans the full definition list again. -/
theorem tokenize_restores_state (fuel : Nat) (defs : List Definition)
    (lexP tokP : Token → Token) (input : String) (toks : List Token)
    (st' : LexState)
    (h : tokenize fuel defs lexP LexState.initial input tokP =
      some (.ok toks, st')) :
    st' = LexState.initial ∧ activeDefs defs st' = defs := by
  have he := tokenize_initial_state fuel defs lexP tokP input toks st' h
  exact ⟨he, by rw [he]; rfl⟩

/-- Witness for C10: the deep "cd" run (which writes and erases one
recursion-map entry) ends in the initial state with the full list
active. -/
theorem tokenize_restores_state_witness :
    (LexState.initial = LexState.initial)
    ∧ activeDefs [dPollute, dOk] LexState.initial = [dPollute, dOk] :=
  tokenize_restores_state 10 [dPollute, dOk] idT idT "cd"
    [Token.mk "e1" "ok" none (some [Token.mk "e2" "ok" none none])]
    LexState.initial rfl

/-! ## C4: determinism and interference between calls -/

/-- Claim C4 (amended): `tokenize` is a pure function of the definition
list, the input and the closure state, and every *successful* call from
the initial state restores that state — so successive successful calls
through the same tokenizer never interfere and repeated runs on the same
input return identical sequences. A call that throws from inside a deep
recursion, however, leaves `parentDefinition` / `usedDefinitions`
polluted and can change the result of a later call (see the
counterexample). -/
theorem tokenize_success_no_interference
    (f1 f2 : Nat) (defs : List Definition) (lexP p1 p2 : Token → Token)
    (in1 in2 : String) (t1 : List Token) (st1 : LexState)
    (h1 : tokenize f1 defs lexP LexState.initial in1 p1 = some (.ok t1, st1)) :
    tokenize f2 defs lexP st1 in2 p2 =
      tokenize f2 defs lexP LexState.initial in2 p2 := by
  rw [tokenize_initial_state _ _ _ _ _ _ _ h1]

/-- Witness for C4 (amended): after the successful "cd" run the next
call, here on "ab", behaves exactly as from the initial state. -/
theorem tokenize_success_no_interference_witness :
    tokenize 10 [dPollute, dOk] idT LexState.initial "ab" idT =
      tokenize 10 [dPollute, dOk] idT LexState.initial "ab" idT :=
  tokenize_success_no_interference 10 10 [dPollute, dOk] idT idT idT "cd" "ab"
    [Token.mk "e1" "ok" none (some [Token.mk "e2" "ok" none none])]
    LexState.initial rfl

/-- Counterexample to C4 as stated: from a fresh state, "cd" tokenizes
successfully; "ab" then fails *inside* the deep recursion (its extracted
value "x" matches nothing), leaving `parentDefinition = dPollute` and a
recursion-map entry behind; re-running the very same "cd" call from that
leftover state now fails, because `dPollute` is filtered out of the
active set — earlier erroring calls do interfere. -/
theorem tokenize_error_pollutes_cex :
    (tokenize 10 [dPollute, dOk] idT LexState.initial "cd" idT =
      some (.ok [Token.mk "e1" "ok" none (some [Token.mk "e2" "ok" none none])],
        LexState.initial))
    ∧ (tokenize 10 [dPollute, dOk] idT LexState.initial "ab" idT =
      some (.error (.noDefinitionMatched "x"),
        ⟨some dPollute, [(dPollute, "x")]⟩))
    ∧ (tokenize 10 [dPollute, dOk] idT ⟨some dPollute, [(dPollute, "x")]⟩
        "cd" idT =
      some (.error (.noDefinitionMatched "cd"),
        ⟨some dPollute, [(dPollute, "x")]⟩))
    ∧ (Except.error (LexError.noDefinitionMatched "cd") :
        Except LexError (List Token)) ≠
      Except.ok [Token.mk "e1" "ok" none (some [Token.mk "e2" "ok" none none])] :=
  ⟨rfl, rfl, rfl, fun h => nomatch h⟩

/-! ## Coverage accounting (C7) -/

/-- Erasing the skipped-character counter from the instrumented loop
gives back the real loop: the instrumentation changes nothing observable. -/
theorem tokenizeLoopSk_erase (fuel : Nat) :
    ∀ (defs : List Definition) (lexP : Token → Token) (vd : List Definition)
      (tokP : Token → Token) (st : LexState) (rest : String)
      (toks : List Token) (sk : Nat),
      (tokenizeLoopSk fuel defs lexP vd tokP st rest toks sk).map
          (fun r => (r.1, r.2.1)) =
        tokenizeLoop fuel defs lexP vd tokP st rest toks := by
  induction fuel with
  | zero => intro defs lexP vd tokP st rest toks sk; rfl
  | succ f ih =>
    intro defs lexP vd tokP st rest toks sk
    cases hfind : vd.find? (fun d => d.test rest) with
    | none => simp [tokenizeLoopSk, tokenizeLoop_succ, hfind]
    | some d =>
      rw [tokenizeLoop_succ, hfind]
      simp only [tokenizeIter, tokenizeStep, tokenizeLoopSk, hfind]
      cases hexec : d.exec rest with
      | none => simp [hexec]
      | some m =>
        simp only [hexec]
        cases hc : usedHas st.used d && (usedGet st.used d == some (matchValue m)) with
        | true => simp [hc]
        | false =>
          simp only [hc, Bool.false_eq_true, if_false]
          cases hs : d.skip with
          | true =>
            simp only [hs, if_true]
            cases hr : (strSlice rest m.matched.length).length == 0 with
            | true => simp [hr]
            | false => simp only [hr, Bool.false_eq_true, if_false]; exact ih _ _ _ _ _ _ _ _
          | false =>
            simp only [hs, Bool.false_eq_true, if_false]
            cases hd : d.deep with
            | true =>
              simp only [hd, if_true]
              cases hn : tokenizeLoop f defs lexP
                  (activeDefs defs ⟨some d, usedSet st.used d (matchValue m)⟩)
                  defaultProcessor ⟨some d, usedSet st.used d (matchValue m)⟩
                  (matchValue m) [] with
              | none => simp [hn]
              | some r =>
                obtain ⟨e, st2⟩ := r
                cases e with
                | error err => simp [hn]
                | ok cs =>
                  simp only [hn]
                  cases hr : (strSlice rest m.matched.length).length == 0 with
                  | true => simp [hr]
                  | false =>
                    simp only [hr, Bool.false_eq_true, if_false]
                    exact ih _ _ _ _ _ _ _ _
            | false =>
              simp only [hd, Bool.false_eq_true, if_false]
              cases hr : (strSlice rest m.matched.length).length == 0 with
              | true => simp [hr]
              | false =>
                simp only [hr, Bool.false_eq_true, if_false]
                exact ih _ _ _ _ _ _ _ _

theorem sumValues_append_singleton (ts : List Token) (t : Token) :
    sumValues (ts ++ [t]) = sumValues ts + t.value.length := by
  simp [sumValues]

/-- The instrumented loop's accounting: when every match extracts its
whole consumed text as the token value (no `value` capture redirection)
and all hooks preserve values, a successful run consumes exactly the
remaining input — emitted values plus skipped characters. -/
theorem tokenizeLoopSk_accounting
    (defs : List Definition) (lexP tokP : Token → Token) (vd : List Definition)
    (hfull : ∀ d ∈ defs, ∀ s m, d.exec s = some m →
      matchValue m = m.matched ∧ m.matched.length ≤ s.length)
    (hproc : ∀ d ∈ defs, ∀ t, (d.process t).value = t.value)
    (htokP : ∀ t, (tokP t).value = t.value)
    (hlexP : ∀ t, (lexP t).value = t.value)
    (hvd : ∀ d ∈ vd, d ∈ defs) :
    ∀ (fuel : Nat) (st : LexState) (rest : String) (toks : List Token)
      (sk : Nat) (toksF : List Token) (st' : LexState) (skF : Nat),
      tokenizeLoopSk fuel defs lexP vd tokP st rest toks sk =
        some (.ok toksF, st', skF) →
      sumValues toksF + skF = sumValues toks + sk + rest.length := by
  intro fuel
  induction fuel with
  | zero =>
    intro st rest toks sk toksF st' skF h
    simp [tokenizeLoopSk] at h
  | succ f ih =>
    intro st rest toks sk toksF st' skF h
    simp only [tokenizeLoopSk] at h
    split at h
    · simp at h
    · rename_i d hfind
      have hd : d ∈ defs := hvd d (List.mem_of_find?_eq_some hfind)
      split at h
      · simp at h
      · rename_i m hexec
        obtain ⟨hv, hle⟩ := hfull d hd rest m hexec
        have hsl := strSlice_length rest m.matched.length
        split at h
        · simp at h
        · rename_i hcond
          split at h
          · rename_i hskip
            split at h
            · rename_i hr
              have hr0 : (strSlice rest m.matched.length).length = 0 :=
                by simpa using hr
              simp only [Option.some.injEq, Prod.mk.injEq, Except.ok.injEq] at h
              obtain ⟨rfl, -, rfl⟩ := h
              omega
            · rename_i hr
              have := ih _ _ _ _ _ _ _ h
              omega
          · rename_i hskip
            split at h
            · rename_i hdeep
              split at h
              · exact Option.noConfusion h
              · simp at h
              · rename_i cs st2 hnest
                have hval : (applyHooks d tokP lexP
                    ((mkToken d m).withChildren cs)).value.length =
                    m.matched.length := by
                  rw [applyHooks, hlexP, htokP, hproc d hd,
                    Token.value_withChildren]
                  rw [show (mkToken d m).value = matchValue m from rfl, hv]
                split at h
                · rename_i hr
                  have hr0 : (strSlice rest m.matched.length).length = 0 :=
                    by simpa using hr
                  simp only [Option.some.injEq, Prod.mk.injEq,
                    Except.ok.injEq] at h
                  obtain ⟨rfl, -, rfl⟩ := h
                  rw [sumValues_append_singleton, hval]
                  omega
                · rename_i hr
                  have := ih _ _ _ _ _ _ _ h
                  rw [sumValues_append_singleton, hval] at this
                  omega
            · rename_i hdeep
              have hval : (applyHooks d tokP lexP (mkToken d m)).value.length =
                  m.matched.length := by
                rw [applyHooks, hlexP, htokP, hproc d hd]
                rw [show (mkToken d m).value = matchValue m from rfl, hv]
              split at h
              · rename_i hr
                have hr0 : (strSlice rest m.matched.length).length = 0 :=
                  by simpa using hr
                simp only [Option.some.injEq, Prod.mk.injEq,
                  Except.ok.injEq] at h
                obtain ⟨rfl, -, rfl⟩ := h
                rw [sumValues_append_singleton, hval]
                omega
              · rename_i hr
                have := ih _ _ _ _ _ _ _ h
                rw [sumValues_append_singleton, hval] at this
                omega

/-- Claim C7 (amended): for every successful run, the value lengths of
the *top-level* tokens plus the characters consumed by skipped matches
add up to the input length, provided every match's token value is its
whole consumed text (no `value` capture redirection) and all hooks
preserve values. Children of deep tokens re-tokenize their parent's
value, so a flattened (children-inclusive) sum double-counts — see the
counterexample. -/
theorem tokenize_coverage
    (fuel : Nat) (defs : List Definition) (lexP tokP : Token → Token)
    (st : LexState) (input : String) (toks : List Token) (st' : LexState)
    (hfull : ∀ d ∈ defs, ∀ s m, d.exec s = some m →
      matchValue m = m.matched ∧ m.matched.length ≤ s.length)
    (hproc : ∀ d ∈ defs, ∀ t, (d.process t).value = t.value)
    (htokP : ∀ t, (tokP t).value = t.value)
    (hlexP : ∀ t, (lexP t).value = t.value)
    (h : tokenize fuel defs lexP st input tokP = some (.ok toks, st')) :
    ∃ sk, tokenizeSk fuel defs lexP st input tokP = some (.ok toks, st', sk)
      ∧ sumValues toks + sk = input.length := by
  cases fuel with
  | zero => simp [tokenize] at h
  | succ f =>
    have hvd : ∀ d ∈ activeDefs defs st, d ∈ defs := by
      intro d hd
      cases hp : st.parent with
      | none => simpa [activeDefs, hp] using hd
      | some p =>
        rw [show activeDefs defs st =
          defs.filter (fun e => !(e.id == p.id)) by rw [activeDefs, hp]] at hd
        exact List.mem_of_mem_filter hd
    have herase := tokenizeLoopSk_erase f defs lexP (activeDefs defs st) tokP
      st input [] 0
    have h' : (tokenizeLoopSk f defs lexP (activeDefs defs st) tokP
        st input [] 0).map (fun r => (r.1, r.2.1)) = some (.ok toks, st') := by
      rw [herase]; exact h
    cases hsk : tokenizeLoopSk f defs lexP (activeDefs defs st) tokP
        st input [] 0 with
    | none => rw [hsk] at h'; simp at h'
    | some r =>
      obtain ⟨e, st2, k⟩ := r
      rw [hsk] at h'
      simp only [Option.map_some', Option.some.injEq, Prod.mk.injEq] at h'
      obtain ⟨rfl, rfl⟩ := h'
      refine ⟨k, hsk, ?_⟩
      have hacc := tokenizeLoopSk_accounting defs lexP tokP
        (activeDefs defs st) hfull hproc htokP hlexP hvd
        f st input [] 0 toks _ k hsk
      simpa [sumValues] using hacc

/-- Counterexample to C7 as stated: tokenizing "ab" with the deep
`dDeepAB` over `dPlainAB` succeeds with no skipped matches, yet the
flattened result holds both the parent token (value "ab") and its child
(value "ab"), so the claimed sum is 4 while the input length is 2 —
children re-tokenize text the parent already accounts for. -/
theorem tokenize_coverage_cex :
    (tokenize 10 [dDeepAB, dPlainAB] idT LexState.initial "ab" idT =
      some (.ok [Token.mk "t1" "ab" none (some [Token.mk "t2" "ab" none none])],
        LexState.initial))
    ∧ sumValues (tokenListFlat
        [Token.mk "t1" "ab" none (some [Token.mk "t2" "ab" none none])]) = 4
    ∧ ("ab" : String).length = 2
    ∧ (4 : Nat) ≠ 2 :=
  ⟨rfl, rfl, rfl, by decide⟩

/-- Witness for C7 (amended): "a b" under a one-character word definition
and a skip space definition — two emitted characters plus one skipped
space cover the three input characters. -/
theorem tokenize_coverage_witness :
    tokenizeSk 10 [dSpaceSkip, dOneChar] idT LexState.initial "a b" idT =
      some (.ok [Token.mk "char" "a" none none, Token.mk "char" "b" none none],
        LexState.initial, 1)
    ∧ sumValues [Token.mk "char" "a" none none, Token.mk "char" "b" none none]
        + 1 = ("a b" : String).length := by
  obtain ⟨sk, h1, h2⟩ := tokenize_coverage 10 [dSpaceSkip, dOneChar] idT idT
    LexState.initial "a b"
    [Token.mk "char" "a" none none, Token.mk "char" "b" none none]
    LexState.initial
    (by
      intro d hd s m hm
      simp only [List.mem_cons, List.not_mem_nil, or_false] at hd
      rcases hd with rfl | rfl
      · simp only [dSpaceSkip] at hm
        split at hm
        · rename_i hhead
          obtain rfl : (⟨" ", []⟩ : ExecMatch) = m := by injection hm
          refine ⟨rfl, ?_⟩
          obtain ⟨data⟩ := s
          cases data with
          | nil => simp at hhead
          | cons c cs =>
            rw [show (" " : String).length = 1 from rfl]
            simp only [String.length, List.length_cons]
            omega
        · exact Option.noConfusion hm
      · simp only [dOneChar] at hm
        obtain ⟨data⟩ := s
        cases data with
        | nil => exact Option.noConfusion hm
        | cons c cs =>
          obtain rfl : (⟨⟨[c]⟩, []⟩ : ExecMatch) = m := by injection hm
          refine ⟨rfl, ?_⟩
          rw [show (⟨[c]⟩ : String).length = 1 from rfl]
          simp only [String.length, List.length_cons]
          omega)
    (by
      intro d hd t
      simp only [List.mem_cons, List.not_mem_nil, or_false] at hd
      rcases hd with rfl | rfl <;> rfl)
    (fun t => rfl) (fun t => rfl) rfl
  have hsk : sk = 1 := by
    have hcomp : tokenizeSk 10 [dSpaceSkip, dOneChar] idT LexState.initial
        "a b" idT =
      some (.ok [Token.mk "char" "a" none none, Token.mk "char" "b" none none],
        LexState.initial, 1) := rfl
    rw [h1] at hcomp
    simpa using hcomp
  exact ⟨hsk ▸ h1, hsk ▸ h2⟩
